import Mathlib

/-!
Verification development for the book-lesson extractor (src/app.py).

The program is modelled shallowly over `List Char` (Python `str`):

* `pySplit` models Python `str.split(sep)` with a non-empty separator;
* `pyStrip` models Python `str.strip()` for the ASCII whitespace class;
* `pyReplace` models Python `str.replace(old, new)` with non-empty `old`;
* `findSplit ciEq` models `re.search` for a fixed literal pattern under
  `re.IGNORECASE | re.DOTALL` (the only regex used is
  a literal open tag, a lazy dot-star group, and a literal close tag, so
  the match is: first position where the open tag matches, then the first
  close-tag occurrence after it);
* `extract_chapters`, `get_key_ideas`, `renderResult`, `runScript` model the
  corresponding pieces of src/app.py.  The effectful PDF read
  (`pymupdf.open` / `page.get_text`) is abstracted into a `PdfReadOutcome`
  record: the list of page texts obtained and whether an exception was
  raised while producing them.  In the source, both raising operations occur
  before the assignment `full_text = "\n".join(current_text)`, so on the
  failure path `full_text` is still unbound when the final
  `return chapters, full_text` executes, which raises `UnboundLocalError`;
  the model records that outcome as an `Except.error`.
-/

/-- Byte-for-byte character equality, the matcher used by Python `str.split`
and `str.replace`. -/
def charEq (a b : Char) : Bool := a == b

/-- Case-insensitive character equality (ASCII case folding), the matcher
used by the `re.IGNORECASE` literal searches in `get_key_ideas`. -/
def ciEq (a b : Char) : Bool := a.toLower == b.toLower

/-- Does `s` start with `pat`, comparing characters with `m`? -/
def startsWithBy (m : Char → Char → Bool) : List Char → List Char → Bool
  | [], _ => true
  | _ :: _, [] => false
  | p :: ps, c :: cs => m p c && startsWithBy m ps cs

/-- Do `pat` and `q` have the same length and match pointwise under `m`? -/
def matchesBy (m : Char → Char → Bool) : List Char → List Char → Bool
  | [], [] => true
  | p :: ps, c :: cs => m p c && matchesBy m ps cs
  | _, _ => false

/-- Python `pat in s` (substring containment) for the matcher `charEq`. -/
def containsSub : List Char → List Char → Bool
  | [], pat => pat.isEmpty
  | c :: rest, pat => startsWithBy charEq pat (c :: rest) || containsSub rest pat

/-- Fuel-indexed worker for Python `str.split(sep)` (non-empty `sep`).
With `fuel ≥ s.length` the fuel never runs out. -/
def pySplitF (sep : List Char) : Nat → List Char → List (List Char)
  | _, [] => [[]]
  | 0, s => [s]
  | fuel + 1, c :: rest =>
    if startsWithBy charEq sep (c :: rest) then
      [] :: pySplitF sep fuel (List.drop (sep.length - 1) rest)
    else
      match pySplitF sep fuel rest with
      | [] => [[c]]
      | p :: ps => (c :: p) :: ps

/-- Python `s.split(sep)` for a non-empty separator. -/
def pySplit (s sep : List Char) : List (List Char) := pySplitF sep s.length s

/-- The ASCII whitespace class stripped by Python `str.strip()` (the model
omits the non-ASCII Unicode whitespace characters, which no claim uses). -/
def pyIsSpace (c : Char) : Bool :=
  c == ' ' || c == '\t' || c == '\n' || c == '\r' || c == '\x0b' || c == '\x0c'

/-- Python `s.strip()` restricted to the ASCII whitespace class. -/
def pyStrip (s : List Char) : List Char :=
  ((s.dropWhile pyIsSpace).reverse.dropWhile pyIsSpace).reverse

/-- The literal separator `"CHAPTER "` used at line 71 of src/app.py. -/
def chapterSep : List Char := ['C', 'H', 'A', 'P', 'T', 'E', 'R', ' ']

/-- Sanity: `chapterSep` spells the source literal. -/
theorem chapterSep_spelling : chapterSep = "CHAPTER ".data := by decide

/-- The loop at lines 73-75 of src/app.py: enumerate the fragments from
index `start` (the source starts at 1), skip fragments whose stripped text
is empty, and store `"CHAPTER " + fragment.strip()` under key `i`, where
the Python dict key is the f-string `"CHAPTER {i}"` (here represented by
the number `i`; see `chapterLabel`). -/
def buildChapters (start : Nat) : List (List Char) → List (Nat × List Char)
  | [] => []
  | c :: rest =>
    if pyStrip c = [] then buildChapters (start + 1) rest
    else (start, chapterSep ++ pyStrip c) :: buildChapters (start + 1) rest

/-- The dict key generated for number `i`: the f-string `"CHAPTER {i}"`. -/
def chapterLabel (i : Nat) : List Char := chapterSep ++ (toString i).data

/-- Lines 71-75 of src/app.py: split the full text on `"CHAPTER "`, drop
the first fragment (the preamble), and build the ordered chapter mapping. -/
def splitChapters (full_text : List Char) : List (Nat × List Char) :=
  buildChapters 1 (pySplit full_text chapterSep).tail

/-- Abstraction of the effectful PDF read inside the `try` block of
`extract_chapters`: the page texts accumulated into `current_text`, and
whether `pymupdf.open` or some `page.get_text()` raised.  Both raising
operations precede the assignment of `full_text`. -/
structure PdfReadOutcome where
  pages : List (List Char)
  failed : Bool
deriving DecidableEq

/-- Decidable equality for `Except`, so that concrete outcomes can be
checked by evaluation. -/
instance {ε α : Type} [DecidableEq ε] [DecidableEq α] :
    DecidableEq (Except ε α)
  | Except.error e, Except.error f => decidable_of_iff (e = f) (by simp)
  | Except.error _, Except.ok _ => isFalse (by simp)
  | Except.ok _, Except.error _ => isFalse (by simp)
  | Except.ok a, Except.ok b => decidable_of_iff (a = b) (by simp)

/-- Observable outcome of a call to `extract_chapters`: whether `st.error`
was invoked, and either the returned pair or the exception escaping the
function. -/
structure ExtractOutcome where
  reportedError : Bool
  result : Except (List Char) (List (Nat × List Char) × List Char)
deriving DecidableEq

/-- The exception raised by `return chapters, full_text` when the `except`
branch ran: `full_text` is assigned only after the page loop completes. -/
def unboundLocalMsg : List Char :=
  "UnboundLocalError: local variable full_text referenced before assignment".data

/-- Model of `extract_chapters` (lines 60-80 of src/app.py).  On a failed
read the `except` branch reports via `st.error` and the function then
raises `UnboundLocalError` at `return chapters, full_text`; on a clean
read it returns the chapter dict and the joined full text. -/
def extract_chapters (o : PdfReadOutcome) : ExtractOutcome :=
  if o.failed then
    { reportedError := true, result := Except.error unboundLocalMsg }
  else
    { reportedError := false
      result :=
        Except.ok (splitChapters (List.intercalate ['\n'] o.pages),
                   List.intercalate ['\n'] o.pages) }

/-- The text shown for the selected dropdown entry (lines 136-142 of
src/app.py): `none` models the `"ALL"` option and shows the full text,
`some i` shows `chapters_dict["CHAPTER {i}"]`. -/
def selectedChapterText (chapters : List (Nat × List Char))
    (full_text : List Char) (sel : Option Nat) : Option (List Char) :=
  match sel with
  | none => some full_text
  | some i => chapters.lookup i

/-- Leftmost literal-pattern search under matcher `m` (a non-empty `pat`):
returns the text before the first match and the text after it, or `none`
when no position matches.  This is the semantics of
`re.search(pat-literal, s)` for our patterns: an occurrence of the close
tag cannot begin strictly inside an occurrence of the open tag (both tags
contain their only occurrence of a character matching them at offset 0),
so composing two of these searches reproduces the lazy group
`<markdown>(.*?)</markdown>`. -/
def findSplit (m : Char → Char → Bool) (pat : List Char) :
    List Char → Option (List Char × List Char)
  | [] => none
  | c :: rest =>
    if startsWithBy m pat (c :: rest) then
      some ([], List.drop (pat.length - 1) rest)
    else
      match findSplit m pat rest with
      | some pq => some (c :: pq.1, pq.2)
      | none => none

/-- The literal open tag searched at line 92 of src/app.py. -/
def openTag : List Char := ['<', 'm', 'a', 'r', 'k', 'd', 'o', 'w', 'n', '>']

/-- The literal close tag searched at line 92 of src/app.py. -/
def closeTag : List Char :=
  ['<', '/', 'm', 'a', 'r', 'k', 'd', 'o', 'w', 'n', '>']

/-- Sanity: the tags spell the source literals. -/
theorem openTag_spelling : openTag = "<markdown>".data := by decide

/-- Sanity: the close tag spells the source literal. -/
theorem closeTag_spelling : closeTag = "</markdown>".data := by decide

/-- Lines 92-96 of src/app.py: search the response text for the pattern
`<markdown>(.*?)</markdown>` with `re.IGNORECASE | re.DOTALL` and return
the stripped group, or `None` when the pattern does not match. -/
def extractMarkdown (result : List Char) : Option (List Char) :=
  match findSplit ciEq openTag result with
  | none => none
  | some ab =>
    match findSplit ciEq closeTag ab.2 with
    | none => none
    | some ip => some (pyStrip ip.1)

/-- Fuel-indexed worker for Python `str.replace(old, new)` (non-empty
`old`).  With `fuel ≥ s.length` the fuel never runs out. -/
def pyReplaceF (old new : List Char) : Nat → List Char → List Char
  | _, [] => []
  | 0, s => s
  | fuel + 1, c :: rest =>
    if startsWithBy charEq old (c :: rest) then
      new ++ pyReplaceF old new fuel (List.drop (old.length - 1) rest)
    else
      c :: pyReplaceF old new fuel rest

/-- Python `s.replace(old, new)` for a non-empty `old`. -/
def pyReplace (s old new : List Char) : List Char :=
  pyReplaceF old new s.length s

/-- The literal placeholder token `"{book_text}"` replaced at line 86 of
src/app.py (the braces are written as their escape codes). -/
def placeholderTok : List Char :=
  ['\x7b', 'b', 'o', 'o', 'k', '_', 't', 'e', 'x', 't', '\x7d']

/-- Sanity: `placeholderTok` spells the source literal. -/
theorem placeholderTok_spelling : placeholderTok = "{book_text}".data := by
  decide

/-- Line 86 of src/app.py: the prompt string handed to the remote call. -/
def buildPrompt (prompt chapter_text : List Char) : List Char :=
  pyReplace prompt placeholderTok chapter_text

/-- Model of `get_key_ideas` (lines 83-101 of src/app.py).  The remote
call `model.generate_content` plus the `candidates[0].content.parts[0].text`
access is abstracted as `generate_content`, a function from the API key and
the substituted prompt to either the raised exception's message or the
response text.  Any exception is caught and turned into `None`; otherwise
the tagged substring is extracted. -/
def get_key_ideas (chapter_text api_key prompt : List Char)
    (generate_content : List Char → List Char → Except (List Char) (List Char)) :
    Option (List Char) :=
  match generate_content api_key (buildPrompt prompt chapter_text) with
  | Except.error _ => none
  | Except.ok result => extractMarkdown result

/-- What the Extract Lessons handler renders after `get_key_ideas` returns
(lines 156-162 of src/app.py). -/
inductive Display where
  | errorMsg (msg : List Char)
  | rendered (md : List Char)
deriving DecidableEq

/-- The error string at line 159 of src/app.py. -/
def extractionErrorMsg : List Char := "Could not extract the lessons.".data

/-- Lines 158-162 of src/app.py: a `None` result is reported as an error,
anything else is rendered as markdown. -/
def renderResult (key_ideas : Option (List Char)) : Display :=
  match key_ideas with
  | none => Display.errorMsg extractionErrorMsg
  | some k => Display.rendered k

/-- The two pages of the sidebar radio toggle (line 117 of src/app.py). -/
inductive Page where
  | home
  | promptEdit
deriving DecidableEq

/-- The persistent session fields initialised at lines 104-111 of
src/app.py.  The uploaded bytes are opaque to the rest of the model. -/
structure SessionState where
  api_key : List Char
  uploaded_file_content : Option (List UInt8)
  custom_prompt : List Char
deriving DecidableEq

/-- The user interactions a single script rerun can carry: a file-upload
event, text typed into the API-key field, an edit of the prompt area, and
the Save button.  A pure page-toggle rerun carries none of them. -/
structure UiEvent where
  uploaded : Option (List UInt8)
  typedApiKey : Option (List Char)
  editedPrompt : Option (List Char)
  clickedSave : Bool

/-- One rerun of the script body (lines 119-172 of src/app.py) as a state
transformer on the session fields.  On the Home page an upload event
overwrites `uploaded_file_content` and the API-key text input writes its
current value back (the previous value when nothing was typed); on the
Prompt page the Save button stores the text area's content (the previous
prompt when it was not edited). -/
def runScript (page : Page) (ev : UiEvent) (s : SessionState) : SessionState :=
  match page with
  | Page.home =>
    let s1 :=
      match ev.uploaded with
      | some b => { s with uploaded_file_content := some b }
      | none => s
    { s1 with api_key := ev.typedApiKey.getD s1.api_key }
  | Page.promptEdit =>
    if ev.clickedSave then
      { s with custom_prompt := ev.editedPrompt.getD s.custom_prompt }
    else s

/-- A script rerun caused purely by switching the page toggle: no upload,
no typing, no click. -/
def navEvent : UiEvent :=
  { uploaded := none, typedApiKey := none, editedPrompt := none,
    clickedSave := false }

/-- Pointwise self-match for a reflexive matcher. -/
theorem matchesBy_refl (m : Char → Char → Bool) (hm : ∀ a, m a a = true) :
    ∀ pat : List Char, matchesBy m pat pat = true := by
  intro pat
  induction pat with
  | nil => rfl
  | cons p ps ih => simp [matchesBy, hm p, ih]

/-- A pointwise match forces equal lengths. -/
theorem matchesBy_length {m : Char → Char → Bool} :
    ∀ {pat q : List Char}, matchesBy m pat q = true → q.length = pat.length := by
  intro pat
  induction pat with
  | nil => intro q h; cases q with
    | nil => rfl
    | cons c cs => simp [matchesBy] at h
  | cons p ps ih =>
    intro q h
    cases q with
    | nil => simp [matchesBy] at h
    | cons c cs =>
      simp only [matchesBy, Bool.and_eq_true] at h
      simp [ih h.2]

/-- A full pointwise match extends to a startsWith on any continuation. -/
theorem startsWithBy_of_matchesBy {m : Char → Char → Bool} :
    ∀ {pat q : List Char}, matchesBy m pat q = true →
      ∀ post : List Char, startsWithBy m pat (q ++ post) = true := by
  intro pat
  induction pat with
  | nil => intro q h post; rfl
  | cons p ps ih =>
    intro q h post
    cases q with
    | nil => simp [matchesBy] at h
    | cons c cs =>
      simp only [matchesBy, Bool.and_eq_true] at h
      simp [startsWithBy, h.1, ih h.2 post]

/-- A startsWith yields a pointwise match on the pattern-length front. -/
theorem matchesBy_take_of_startsWithBy {m : Char → Char → Bool} :
    ∀ {pat s : List Char}, startsWithBy m pat s = true →
      matchesBy m pat (s.take pat.length) = true := by
  intro pat
  induction pat with
  | nil => intro s h; rfl
  | cons p ps ih =>
    intro s h
    cases s with
    | nil => simp [startsWithBy] at h
    | cons c cs =>
      simp only [startsWithBy, Bool.and_eq_true] at h
      simp only [List.length_cons, List.take_succ_cons, matchesBy,
        Bool.and_eq_true]
      exact ⟨h.1, ih h.2⟩

/-- Where the search finds a match: the text decomposes around a matched
segment. -/
theorem findSplit_sound {m : Char → Char → Bool} {pat : List Char}
    (hpat : pat ≠ []) :
    ∀ {s a b : List Char}, findSplit m pat s = some (a, b) →
      ∃ q, s = a ++ q ++ b ∧ matchesBy m pat q = true := by
  intro s
  induction s with
  | nil => intro a b h; simp [findSplit] at h
  | cons c rest ih =>
    intro a b h
    by_cases hsw : startsWithBy m pat (c :: rest) = true
    · rw [findSplit, if_pos hsw] at h
      simp only [Option.some.injEq, Prod.mk.injEq] at h
      obtain ⟨rfl, rfl⟩ := h
      refine ⟨(c :: rest).take pat.length, ?_, matchesBy_take_of_startsWithBy hsw⟩
      obtain ⟨p0, ps, rfl⟩ : ∃ p0 ps, pat = p0 :: ps := by
        cases pat with
        | nil => exact absurd rfl hpat
        | cons p0 ps => exact ⟨p0, ps, rfl⟩
      simp only [List.length_cons, List.take_succ_cons, List.nil_append,
        Nat.add_sub_cancel, List.cons_append, List.cons.injEq, true_and]
      exact (List.take_append_drop ps.length rest).symm
    · rw [findSplit, if_neg hsw] at h
      cases hrec : findSplit m pat rest with
      | none => rw [hrec] at h; exact absurd h (by simp)
      | some pq =>
        rw [hrec] at h
        obtain ⟨a', b'⟩ := pq
        simp only [Option.some.injEq, Prod.mk.injEq] at h
        obtain ⟨rfl, rfl⟩ := h
        obtain ⟨q, hq, hmq⟩ := ih hrec
        exact ⟨q, by simp [hq], hmq⟩

/-- Where the search succeeds on a known decomposition: if nothing in `pre`
matches the pattern's first character, the first match is exactly the
exhibited one. -/
theorem findSplit_of_decomp {m : Char → Char → Bool} {pat q : List Char}
    (hpat : pat ≠ []) (hq : matchesBy m pat q = true) :
    ∀ (pre post : List Char), (∀ c ∈ pre, m pat.headI c = false) →
      findSplit m pat (pre ++ (q ++ post)) = some (pre, post) := by
  intro pre
  induction pre with
  | nil =>
    intro post _
    obtain ⟨p0, ps, rfl⟩ : ∃ p0 ps, pat = p0 :: ps := by
      cases pat with
      | nil => exact absurd rfl hpat
      | cons p0 ps => exact ⟨p0, ps, rfl⟩
    obtain ⟨c0, q', rfl⟩ : ∃ c0 q', q = c0 :: q' := by
      cases q with
      | nil => simp [matchesBy] at hq
      | cons c0 q' => exact ⟨c0, q', rfl⟩
    have hsw : startsWithBy m (p0 :: ps) (c0 :: (q' ++ post)) = true := by
      have := startsWithBy_of_matchesBy hq post
      simpa using this
    have hlen : q'.length = ps.length := by
      have := matchesBy_length hq
      simpa using this
    show findSplit m (p0 :: ps) (c0 :: (q' ++ post)) = some ([], post)
    rw [findSplit, if_pos hsw]
    simp only [Option.some.injEq, Prod.mk.injEq, List.length_cons,
      Nat.add_sub_cancel, true_and]
    rw [← hlen, List.drop_left]
  | cons c pre' ih =>
    intro post hpre
    have hc : m pat.headI c = false := hpre c (List.mem_cons_self c pre')
    have hsw : startsWithBy m pat (c :: (pre' ++ (q ++ post))) = false := by
      obtain ⟨p0, ps, rfl⟩ : ∃ p0 ps, pat = p0 :: ps := by
        cases pat with
        | nil => exact absurd rfl hpat
        | cons p0 ps => exact ⟨p0, ps, rfl⟩
      simp only [List.headI] at hc
      simp [startsWithBy, hc]
    have hrec := ih post (fun d hd => hpre d (List.mem_cons_of_mem c hd))
    show findSplit m pat (c :: (pre' ++ (q ++ post))) = some (c :: pre', post)
    rw [findSplit, if_neg (by simp [hsw]), hrec]

/-- Splitting on a separator that does not occur returns the whole string
as the only fragment (fuel-indexed form). -/
theorem pySplitF_of_not_contains {sep : List Char} :
    ∀ (fuel : Nat) (s : List Char), s.length ≤ fuel →
      containsSub s sep = false → pySplitF sep fuel s = [s] := by
  intro fuel
  induction fuel with
  | zero =>
    intro s hlen _
    have : s = [] := List.eq_nil_of_length_eq_zero (Nat.le_zero.mp hlen)
    subst this
    rfl
  | succ f ih =>
    intro s hlen hc
    cases s with
    | nil => rfl
    | cons c rest =>
      simp only [containsSub, Bool.or_eq_false_iff] at hc
      rw [pySplitF, if_neg (by simp [hc.1])]
      rw [ih rest (by simpa using Nat.le_of_succ_le_succ hlen) hc.2]

/-- Splitting on a separator that does not occur returns the whole string
as the only fragment. -/
theorem pySplit_of_not_contains {s sep : List Char}
    (hc : containsSub s sep = false) : pySplit s sep = [s] :=
  pySplitF_of_not_contains s.length s (Nat.le_refl _) hc

/-- Membership in the chapter map built from fragment list `l` starting at
number `start`: number `i` is a key exactly when it indexes (relative to
`start`) a fragment whose stripped text is non-empty. -/
theorem buildChapters_mem :
    ∀ (l : List (List Char)) (start i : Nat),
      (∃ v, (i, v) ∈ buildChapters start l) ↔
        (start ≤ i ∧ i < start + l.length ∧
          pyStrip (l.getD (i - start) []) ≠ []) := by
  intro l
  induction l with
  | nil =>
    intro start i
    constructor
    · rintro ⟨v, hv⟩
      simp [buildChapters] at hv
    · rintro ⟨h1, h2, _⟩
      simp only [List.length_nil, Nat.add_zero] at h2
      omega
  | cons c rest ih =>
    intro start i
    by_cases hc : pyStrip c = []
    · rw [show buildChapters start (c :: rest) = buildChapters (start + 1) rest
        from by simp [buildChapters, hc]]
      rw [ih (start + 1) i]
      constructor
      · rintro ⟨h1, h2, h3⟩
        refine ⟨by omega, by simp only [List.length_cons]; omega, ?_⟩
        rw [show i - start = (i - (start + 1)) + 1 from by omega,
          List.getD_cons_succ]
        exact h3
      · rintro ⟨h1, h2, h3⟩
        rcases Nat.eq_or_lt_of_le h1 with he | hl
        · exfalso
          rw [← he, Nat.sub_self, List.getD_cons_zero] at h3
          exact h3 hc
        · refine ⟨by omega, by simp only [List.length_cons] at h2; omega, ?_⟩
          rw [show i - start = (i - (start + 1)) + 1 from by omega,
            List.getD_cons_succ] at h3
          exact h3
    · rw [show buildChapters start (c :: rest) =
          (start, chapterSep ++ pyStrip c) :: buildChapters (start + 1) rest
        from by simp [buildChapters, hc]]
      constructor
      · rintro ⟨v, hv⟩
        rcases List.mem_cons.mp hv with he | ht
        · have hi : i = start := by
            have := congrArg Prod.fst he
            simpa using this
          subst hi
          refine ⟨Nat.le_refl _, by simp only [List.length_cons]; omega, ?_⟩
          rw [Nat.sub_self, List.getD_cons_zero]
          exact hc
        · obtain ⟨h1, h2, h3⟩ := (ih (start + 1) i).mp ⟨v, ht⟩
          refine ⟨by omega, by simp only [List.length_cons]; omega, ?_⟩
          rw [show i - start = (i - (start + 1)) + 1 from by omega,
            List.getD_cons_succ]
          exact h3
      · rintro ⟨h1, h2, h3⟩
        rcases Nat.eq_or_lt_of_le h1 with he | hl
        · exact ⟨chapterSep ++ pyStrip c, by rw [← he]; exact List.mem_cons_self _ _⟩
        · rw [show i - start = (i - (start + 1)) + 1 from by omega,
            List.getD_cons_succ] at h3
          obtain ⟨v, hv⟩ := (ih (start + 1) i).mpr
            ⟨by omega, by simp only [List.length_cons] at h2; omega, h3⟩
          exact ⟨v, List.mem_cons_of_mem _ hv⟩

/-- The keys of the chapter map are strictly increasing (document order). -/
theorem buildChapters_keys_sorted :
    ∀ (l : List (List Char)) (start : Nat),
      List.Pairwise (fun a b => a < b)
        ((buildChapters start l).map Prod.fst) := by
  intro l
  induction l with
  | nil => intro start; simp [buildChapters]
  | cons c rest ih =>
    intro start
    by_cases hc : pyStrip c = []
    · simpa [buildChapters, hc] using ih (start + 1)
    · rw [show buildChapters start (c :: rest) =
          (start, chapterSep ++ pyStrip c) :: buildChapters (start + 1) rest
        from by simp [buildChapters, hc]]
      rw [List.map_cons]
      refine List.pairwise_cons.mpr ⟨?_, ih (start + 1)⟩
      intro b hb
      obtain ⟨⟨j, w⟩, hmem, rfl⟩ := List.mem_map.mp hb
      have := ((buildChapters_mem rest (start + 1) j).mp ⟨w, hmem⟩).1
      simpa using Nat.lt_of_lt_of_le (Nat.lt_succ_self start) this

/-- The placeholder cannot start at a character other than its opening
brace. -/
theorem startsWithBy_placeholder_false {c : Char} (rest : List Char)
    (hc : c ≠ '\x7b') :
    startsWithBy charEq placeholderTok (c :: rest) = false := by
  show (charEq '\x7b' c &&
    startsWithBy charEq
      ['b', 'o', 'o', 'k', '_', 't', 'e', 'x', 't', '\x7d'] rest) = false
  have : charEq '\x7b' c = false := by
    simp [charEq]
    exact fun he => hc he.symm
  simp [this]

/-- `str.replace` leaves a string without an opening brace unchanged
(regardless of fuel: running out of fuel also returns the string). -/
theorem pyReplaceF_no_brace (ct : List Char) :
    ∀ (fuel : Nat) (s : List Char), '\x7b' ∉ s →
      pyReplaceF placeholderTok ct fuel s = s := by
  intro fuel
  induction fuel with
  | zero =>
    intro s _
    cases s with
    | nil => rfl
    | cons c rest => rfl
  | succ f ih =>
    intro s h
    cases s with
    | nil => rfl
    | cons c rest =>
      have hc : c ≠ '\x7b' := fun he => h (he ▸ List.mem_cons_self c rest)
      rw [pyReplaceF,
        if_neg (by simp [startsWithBy_placeholder_false rest hc])]
      rw [ih rest (fun hm => h (List.mem_cons_of_mem c hm))]

/-- Substituting into a template with a unique placeholder occurrence
(no other opening brace anywhere): the fuel-indexed worker replaces
exactly that occurrence. -/
theorem pyReplaceF_single (ct post : List Char) (hpost : '\x7b' ∉ post) :
    ∀ (pre : List Char) (fuel : Nat), '\x7b' ∉ pre →
      (pre ++ (placeholderTok ++ post)).length ≤ fuel →
      pyReplaceF placeholderTok ct fuel (pre ++ (placeholderTok ++ post)) =
        pre ++ (ct ++ post) := by
  intro pre
  induction pre with
  | nil =>
    intro fuel _ hlen
    simp only [List.nil_append] at *
    cases fuel with
    | zero =>
      exfalso
      simp [List.length_append, placeholderTok] at hlen
    | succ f =>
      rw [show placeholderTok ++ post =
        '\x7b' :: (['b', 'o', 'o', 'k', '_', 't', 'e', 'x', 't', '\x7d'] ++ post)
        from rfl]
      have hsw : startsWithBy charEq placeholderTok
          ('\x7b' ::
            (['b', 'o', 'o', 'k', '_', 't', 'e', 'x', 't', '\x7d'] ++ post)) =
          true := by
        have hself := matchesBy_refl charEq (fun a => by simp [charEq])
          placeholderTok
        have := startsWithBy_of_matchesBy hself post
        simpa using this
      rw [pyReplaceF, if_pos hsw]
      have hdrop : List.drop (placeholderTok.length - 1)
          (['b', 'o', 'o', 'k', '_', 't', 'e', 'x', 't', '\x7d'] ++ post) =
          post := by
        rw [show placeholderTok.length - 1 =
          (['b', 'o', 'o', 'k', '_', 't', 'e', 'x', 't', '\x7d'] :
            List Char).length from by decide]
        exact List.drop_left _ _
      rw [hdrop, pyReplaceF_no_brace ct f post hpost]
  | cons c pre' ih =>
    intro fuel hpre hlen
    have hc : c ≠ '\x7b' := fun he => hpre (he ▸ List.mem_cons_self c pre')
    cases fuel with
    | zero =>
      exfalso
      simp only [List.cons_append, List.length_cons] at hlen
      omega
    | succ f =>
      show pyReplaceF placeholderTok ct (f + 1)
          (c :: (pre' ++ (placeholderTok ++ post))) =
        c :: (pre' ++ (ct ++ post))
      rw [pyReplaceF,
        if_neg (by simp [startsWithBy_placeholder_false _ hc])]
      rw [ih f (fun hm => hpre (List.mem_cons_of_mem c hm))
        (by simp only [List.cons_append, List.length_cons] at hlen; omega)]

/-- A case-insensitive `<markdown>`...`</markdown>` tag pair inside a
response text: some open-tag occurrence followed (anywhere later) by some
close-tag occurrence. -/
def hasMarkdownPair (r : List Char) : Prop :=
  ∃ a q1 mid q2 post,
    r = a ++ (q1 ++ (mid ++ (q2 ++ post))) ∧
    matchesBy ciEq openTag q1 = true ∧ matchesBy ciEq closeTag q2 = true

/-- A response holding a tag pair is at least as long as the two tags. -/
theorem hasMarkdownPair_length {r : List Char} (h : hasMarkdownPair r) :
    21 ≤ r.length := by
  obtain ⟨a, q1, mid, q2, post, hr, h1, h2⟩ := h
  have l1 : q1.length = 10 := by
    have := matchesBy_length h1
    simpa [openTag] using this
  have l2 : q2.length = 11 := by
    have := matchesBy_length h2
    simpa [closeTag] using this
  subst hr
  simp only [List.length_append]
  omega

/-- The extraction at lines 92-96 on a response decomposed around its first
tag pair: nothing before the open tag or between the tags matches the
character opening a tag, so the regex group is exactly `inner`, and the
result is its stripped text. -/
theorem extractMarkdown_pair {pre q1 inner q2 post : List Char}
    (hq1 : matchesBy ciEq openTag q1 = true)
    (hq2 : matchesBy ciEq closeTag q2 = true)
    (hpre : ∀ c ∈ pre, ciEq '<' c = false)
    (hinner : ∀ c ∈ inner, ciEq '<' c = false) :
    extractMarkdown (pre ++ (q1 ++ (inner ++ (q2 ++ post)))) =
      some (pyStrip inner) := by
  have hne1 : openTag ≠ [] := by simp [openTag]
  have hne2 : closeTag ≠ [] := by simp [closeTag]
  have hopen : findSplit ciEq openTag (pre ++ (q1 ++ (inner ++ (q2 ++ post)))) =
      some (pre, inner ++ (q2 ++ post)) := by
    have := findSplit_of_decomp hne1 hq1 pre (inner ++ (q2 ++ post))
      (by simpa [openTag] using hpre)
    exact this
  have hclose : findSplit ciEq closeTag (inner ++ (q2 ++ post)) =
      some (inner, post) := by
    have := findSplit_of_decomp hne2 hq2 inner post
      (by simpa [closeTag] using hinner)
    exact this
  rw [extractMarkdown, hopen]
  simp only
  rw [hclose]

/-- Claim C1 (refuted by the code, code bug): the spec says a failed PDF
open or page-text extraction is caught and `extract_chapters` returns
normally with an empty chapter collection and the accumulated partial
text.  In the code `full_text` is assigned only after the page loop inside
the `try` block, so on every failure path the `except` branch reports the
error and then `return chapters, full_text` raises `UnboundLocalError`:
the function never returns normally after a failure, whatever pages were
accumulated. -/
theorem extract_chapters_raises_on_failure (ps : List (List Char)) :
    extract_chapters { pages := ps, failed := true } =
      { reportedError := true, result := Except.error unboundLocalMsg } := rfl

/-- Claim C2, counterexample: on the text "CHAPTER CHAPTER x" the fragment
between the two markers strips to empty, so its number 1 is consumed but
skipped and the only generated label is "CHAPTER 2" — the labels are not
numbered consecutively from 1. -/
theorem splitChapters_labels_not_consecutive :
    (splitChapters "CHAPTER CHAPTER x".data).map (fun p => chapterLabel p.1) ≠
      (List.range' 1 (splitChapters "CHAPTER CHAPTER x".data).length).map
        chapterLabel := by decide

/-- Claim C2 (amended): the chapter keys are exactly the 1-based positions,
among the fragments following the discarded preamble, of the fragments
whose stripped text is non-empty, and they are strictly increasing in
document order.  They are consecutive from 1 only when no fragment strips
to empty: a fragment that does consumes its number. -/
theorem splitChapters_key_characterization (t : List Char) :
    List.Pairwise (fun a b => a < b) ((splitChapters t).map Prod.fst) ∧
    ∀ i : Nat, (∃ v, (i, v) ∈ splitChapters t) ↔
      (1 ≤ i ∧ i ≤ ((pySplit t chapterSep).tail).length ∧
        pyStrip (((pySplit t chapterSep).tail).getD (i - 1) []) ≠ []) := by
  constructor
  · exact buildChapters_keys_sorted _ 1
  · intro i
    rw [show splitChapters t = buildChapters 1 (pySplit t chapterSep).tail
      from rfl]
    rw [buildChapters_mem]
    constructor
    · rintro ⟨h1, h2, h3⟩
      exact ⟨h1, by omega, h3⟩
    · rintro ⟨h1, h2, h3⟩
      exact ⟨h1, by omega, h3⟩

/-- Claim C3: splitting the exact text "CHAPTER 1 foo CHAPTER 2 bar"
yields exactly the two entries "CHAPTER 1 foo" and "CHAPTER 2 bar"
(trimmed and re-prefixed) under the labels "CHAPTER 1" and "CHAPTER 2",
the empty preamble before the first marker being discarded. -/
theorem splitChapters_two_chapter_example :
    splitChapters "CHAPTER 1 foo CHAPTER 2 bar".data =
      [(1, "CHAPTER 1 foo".data), (2, "CHAPTER 2 bar".data)] ∧
    (splitChapters "CHAPTER 1 foo CHAPTER 2 bar".data).map
      (fun p => chapterLabel p.1) = ["CHAPTER 1".data, "CHAPTER 2".data] := by
  decide

/-- Claim C4: when the joined page text contains no occurrence of
"CHAPTER ", `extract_chapters` returns an empty chapter collection
together with the unchanged full text, and the "ALL" dropdown option still
displays that full text. -/
theorem extract_chapters_no_marker (ps : List (List Char))
    (h : containsSub (List.intercalate ['\n'] ps) chapterSep = false) :
    extract_chapters { pages := ps, failed := false } =
      { reportedError := false,
        result := Except.ok ([], List.intercalate ['\n'] ps) } ∧
    selectedChapterText [] (List.intercalate ['\n'] ps) none =
      some (List.intercalate ['\n'] ps) := by
  have hs : pySplit (List.intercalate ['\n'] ps) chapterSep =
      [List.intercalate ['\n'] ps] := pySplit_of_not_contains h
  constructor
  · simp [extract_chapters, splitChapters, hs, buildChapters]
  · rfl

/-- Witness for claim C4 at the one-page text "hello". -/
theorem extract_chapters_no_marker_witness :
    extract_chapters { pages := ["hello".data], failed := false } =
      { reportedError := false,
        result := Except.ok ([], List.intercalate ['\n'] ["hello".data]) } ∧
    selectedChapterText [] (List.intercalate ['\n'] ["hello".data]) none =
      some (List.intercalate ['\n'] ["hello".data]) :=
  extract_chapters_no_marker ["hello".data] (by decide)

/-- Claim C5: a response decomposing around a case-insensitive
`<markdown>`...`</markdown>` tag pair — with no character matching the
tag opener before the open tag or inside the pair, so that the exhibited
pair is the one the regex matches — is extracted to the inner text with
surrounding whitespace stripped. -/
theorem get_key_ideas_extracts_tagged
    (ct key tpl pre q1 inner q2 post : List Char)
    (hq1 : matchesBy ciEq openTag q1 = true)
    (hq2 : matchesBy ciEq closeTag q2 = true)
    (hpre : ∀ c ∈ pre, ciEq '<' c = false)
    (hinner : ∀ c ∈ inner, ciEq '<' c = false) :
    get_key_ideas ct key tpl
      (fun _ _ => Except.ok (pre ++ (q1 ++ (inner ++ (q2 ++ post))))) =
      some (pyStrip inner) := by
  show extractMarkdown (pre ++ (q1 ++ (inner ++ (q2 ++ post)))) =
    some (pyStrip inner)
  exact extractMarkdown_pair hq1 hq2 hpre hinner

/-- Witness for claim C5 at the mixed-case response
"<MARKDOWN>x</MARKDOWN>", extracted as "x". -/
theorem get_key_ideas_extracts_tagged_witness :
    get_key_ideas "t".data "k".data "p".data
      (fun _ _ => Except.ok
        ([] ++ ("<MARKDOWN>".data ++ ("x".data ++ ("</MARKDOWN>".data ++ []))))) =
      some (pyStrip "x".data) :=
  get_key_ideas_extracts_tagged _ _ _ _ _ _ _ _ (by decide) (by decide)
    (by decide) (by decide)

/-- Claim C6: a response containing no case-insensitive
`<markdown>`...`</markdown>` tag pair makes `get_key_ideas` return `None`
without raising, and the Extract Lessons handler then reports
"Could not extract the lessons." instead of rendering a result. -/
theorem get_key_ideas_no_pair (ct key tpl r : List Char)
    (h : ¬ hasMarkdownPair r) :
    get_key_ideas ct key tpl (fun _ _ => Except.ok r) = none ∧
    renderResult (get_key_ideas ct key tpl (fun _ _ => Except.ok r)) =
      Display.errorMsg extractionErrorMsg := by
  have hext : extractMarkdown r = none := by
    cases h1 : findSplit ciEq openTag r with
    | none => rw [extractMarkdown, h1]
    | some ab =>
      obtain ⟨a, b⟩ := ab
      obtain ⟨q1, hr, hm1⟩ := findSplit_sound (by simp [openTag]) h1
      cases h2 : findSplit ciEq closeTag b with
      | none =>
        rw [extractMarkdown, h1]
        simp only
        rw [h2]
      | some ip =>
        obtain ⟨inner, post⟩ := ip
        obtain ⟨q2, hb, hm2⟩ := findSplit_sound (by simp [closeTag]) h2
        exfalso
        apply h
        refine ⟨a, q1, inner, q2, post, ?_, hm1, hm2⟩
        rw [hr, hb]
        simp [List.append_assoc]
  constructor
  · show extractMarkdown r = none
    exact hext
  · show renderResult (extractMarkdown r) = Display.errorMsg extractionErrorMsg
    rw [hext]
    rfl

/-- Witness for claim C6 at the tagless response "no tags here". -/
theorem get_key_ideas_no_pair_witness :
    get_key_ideas "t".data "k".data "p".data
      (fun _ _ => Except.ok "no tags here".data) = none ∧
    renderResult (get_key_ideas "t".data "k".data "p".data
      (fun _ _ => Except.ok "no tags here".data)) =
      Display.errorMsg extractionErrorMsg :=
  get_key_ideas_no_pair "t".data "k".data "p".data "no tags here".data
    (fun hp => absurd (hasMarkdownPair_length hp) (by decide))

/-- Claim C7: for a template holding exactly one occurrence of the literal
placeholder token "\x7bbook_text\x7d" (and no other opening brace), the
prompt handed to the remote call is the template with that token replaced
by the selected text. -/
theorem buildPrompt_substitutes (pre post ct : List Char)
    (hpre : '\x7b' ∉ pre) (hpost : '\x7b' ∉ post) :
    buildPrompt (pre ++ (placeholderTok ++ post)) ct = pre ++ (ct ++ post) :=
  pyReplaceF_single ct post hpost pre
    (pre ++ (placeholderTok ++ post)).length hpre (Nat.le_refl _)

/-- Witness for claim C7: substituting "TEXT" into the template
"A \x7bbook_text\x7d B" produces "A TEXT B". -/
theorem buildPrompt_substitutes_witness :
    buildPrompt ("A ".data ++ (placeholderTok ++ " B".data)) "TEXT".data =
      "A ".data ++ ("TEXT".data ++ " B".data) :=
  buildPrompt_substitutes "A ".data " B".data "TEXT".data (by decide)
    (by decide)

/-- Claim C8: `get_key_ideas` is deterministic given the remote response —
two remote functions that return the same response on the prompt actually
sent produce the same extracted result and the same displayed outcome. -/
theorem get_key_ideas_deterministic (ct key tpl : List Char)
    (g1 g2 : List Char → List Char → Except (List Char) (List Char))
    (h : g1 key (buildPrompt tpl ct) = g2 key (buildPrompt tpl ct)) :
    get_key_ideas ct key tpl g1 = get_key_ideas ct key tpl g2 ∧
    renderResult (get_key_ideas ct key tpl g1) =
      renderResult (get_key_ideas ct key tpl g2) := by
  have he : get_key_ideas ct key tpl g1 = get_key_ideas ct key tpl g2 := by
    simp only [get_key_ideas]
    rw [h]
  exact ⟨he, by rw [he]⟩

/-- Witness for claim C8 at two syntactically different remote stubs that
agree on the sent prompt. -/
theorem get_key_ideas_deterministic_witness :
    get_key_ideas "t".data "k".data "p".data
        (fun _ _ => Except.ok "<markdown>hi</markdown>".data) =
      get_key_ideas "t".data "k".data "p".data
        (fun _ p => Except.ok ("<markdown>hi</markdown>".data ++ List.take 0 p)) ∧
    renderResult (get_key_ideas "t".data "k".data "p".data
        (fun _ _ => Except.ok "<markdown>hi</markdown>".data)) =
      renderResult (get_key_ideas "t".data "k".data "p".data
        (fun _ p => Except.ok ("<markdown>hi</markdown>".data ++ List.take 0 p))) :=
  get_key_ideas_deterministic "t".data "k".data "p".data _ _ (by simp)

/-- Claim C9: a script rerun caused purely by switching the page toggle —
in either direction between Home and Prompt, with no upload, typing or
click — leaves the session's API key and prompt template unchanged. -/
theorem runScript_toggle_preserves_fields (s : SessionState) (p1 p2 : Page) :
    (runScript p2 navEvent (runScript p1 navEvent s)).api_key = s.api_key ∧
    (runScript p2 navEvent (runScript p1 navEvent s)).custom_prompt =
      s.custom_prompt := by
  cases p1 <;> cases p2 <;> simp [runScript, navEvent]

/-- Claim C10: a response containing two case-insensitive tag pairs does
not make `get_key_ideas` fail: it returns the stripped inner text of the
first (leftmost, lazily closed) pair and discards the second pair and
everything after the first close tag. -/
theorem get_key_ideas_first_of_two_pairs
    (ct key tpl pre i1 mid i2 post q1 q2 q3 q4 : List Char)
    (hq1 : matchesBy ciEq openTag q1 = true)
    (hq2 : matchesBy ciEq closeTag q2 = true)
    (_hq3 : matchesBy ciEq openTag q3 = true)
    (_hq4 : matchesBy ciEq closeTag q4 = true)
    (hpre : ∀ c ∈ pre, ciEq '<' c = false)
    (hi1 : ∀ c ∈ i1, ciEq '<' c = false) :
    get_key_ideas ct key tpl
      (fun _ _ => Except.ok
        (pre ++ (q1 ++ (i1 ++ (q2 ++ (mid ++ (q3 ++ (i2 ++ (q4 ++ post))))))))) =
      some (pyStrip i1) := by
  show extractMarkdown
      (pre ++ (q1 ++ (i1 ++ (q2 ++ (mid ++ (q3 ++ (i2 ++ (q4 ++ post)))))))) =
    some (pyStrip i1)
  exact extractMarkdown_pair hq1 hq2 hpre hi1

/-- Witness for claim C10 at the two-pair response
"<markdown>a</markdown><markdown>b</markdown>", extracted as "a". -/
theorem get_key_ideas_first_of_two_pairs_witness :
    get_key_ideas "t".data "k".data "p".data
      (fun _ _ => Except.ok
        ([] ++ (openTag ++ ("a".data ++ (closeTag ++
          ([] ++ (openTag ++ ("b".data ++ (closeTag ++ []))))))))) =
      some (pyStrip "a".data) :=
  get_key_ideas_first_of_two_pairs _ _ _ _ _ _ _ _ _ _ _ _
    (by decide) (by decide) (by decide) (by decide) (by decide) (by decide)
